import Mathlib

/-!
Verification of the comfyprompt_dataset repository's prompt-extraction and
manifest-persistence core against its specification.

The Python sources are shallowly embedded: file and image I/O is abstracted
into explicit parameters (a path-to-bytes map, an already-read metadata
mapping, abstract resolve/abspath functions), while the pure string and
record manipulation is translated function by function.  Python `str`
operations are modelled on `List Char` (ASCII case folding; whitespace is
the ASCII set space/tab/LF/CR/VT/FF).
-/

set_option maxHeartbeats 1000000

namespace ComfyPrompt

/-! ## Python string primitives -/

/-- Whitespace as matched by Python's `str.strip` / `re \s` on the ASCII range. -/
def pyIsWS (c : Char) : Bool :=
  c = ' ' || c = '\t' || c = '\n' || c = '\r' || c = '\x0b' || c = '\x0c'

/-- ASCII lower-casing, modeling Python `str.lower` on the inputs the code meets. -/
def pyLowerChar (c : Char) : Char :=
  match c with
  | 'A' => 'a' | 'B' => 'b' | 'C' => 'c' | 'D' => 'd' | 'E' => 'e' | 'F' => 'f'
  | 'G' => 'g' | 'H' => 'h' | 'I' => 'i' | 'J' => 'j' | 'K' => 'k' | 'L' => 'l'
  | 'M' => 'm' | 'N' => 'n' | 'O' => 'o' | 'P' => 'p' | 'Q' => 'q' | 'R' => 'r'
  | 'S' => 's' | 'T' => 't' | 'U' => 'u' | 'V' => 'v' | 'W' => 'w' | 'X' => 'x'
  | 'Y' => 'y' | 'Z' => 'z'
  | other => other

def pyLowerStr (s : String) : String := String.mk (s.data.map pyLowerChar)

/-- Drop trailing elements satisfying `p` (helper for `str.strip`/`rstrip`). -/
def rdropP (p : Char → Bool) (l : List Char) : List Char :=
  ((l.reverse).dropWhile p).reverse

/-- Python `str.strip()` on a char list. -/
def pyStripL (l : List Char) : List Char :=
  rdropP pyIsWS (l.dropWhile pyIsWS)

/-- Python `str.strip()`. -/
def pyStripStr (s : String) : String := String.mk (pyStripL s.data)

/-- `re.sub(r"\s+", " ", ·)` : every maximal whitespace run becomes one space. -/
def collapseWS : List Char → List Char
  | [] => []
  | [c] => if pyIsWS c then [' '] else [c]
  | c :: d :: rest =>
    if pyIsWS c && pyIsWS d then collapseWS (d :: rest)
    else (if pyIsWS c then ' ' else c) :: collapseWS (d :: rest)

/-- `app/utils.py normalize_prompt`: strip, then collapse whitespace runs. -/
def normalize_prompt (s : String) : String :=
  String.mk (collapseWS (pyStripL s.data))

/-- No char is whitespace other than a single `' '` always followed by
non-whitespace, and the last char is not whitespace. -/
def noRun : List Char → Bool
  | [] => true
  | [c] => !pyIsWS c
  | c :: d :: rest => (!pyIsWS c || (c = ' ' && !pyIsWS d)) && noRun (d :: rest)

/-- The first char, when present, is not whitespace. -/
def headOK : List Char → Bool
  | [] => true
  | c :: _ => !pyIsWS c

/-- The last char, when present, is not whitespace. -/
def lastOK : List Char → Bool
  | [] => true
  | [c] => !pyIsWS c
  | _ :: d :: rest => lastOK (d :: rest)

/-- `pat` begins the list `l` (Python `str.startswith`). -/
def lBegins : List Char → List Char → Bool
  | [], _ => true
  | a :: as, l =>
    match l with
    | b :: bs => a = b && lBegins as bs
    | [] => false

/-- `pat` occurs as a contiguous run inside `l` (Python `pat in s`). -/
def lInside (pat : List Char) : List Char → Bool
  | [] => lBegins pat []
  | c :: rest => lBegins pat (c :: rest) || lInside pat rest

/-- Python `s.startswith (t)` on strings. -/
def strBegins (s t : String) : Bool := lBegins t.data s.data

/-- Python `t in s` on strings. -/
def strInside (t s : String) : Bool := lInside t.data s.data

/-- Python `s.endswith (t)`. -/
def strEnds (s t : String) : Bool := lBegins t.data.reverse s.data.reverse

/-- Python `s.split (sep)` for a one-char separator. -/
def lSplit (sep : Char) : List Char → List (List Char)
  | [] => [[]]
  | c :: rest =>
    let r := lSplit sep rest
    if c = sep then [] :: r
    else
      match r with
      | [] => [[c]]
      | h :: t => (c :: h) :: t

def pySplit (s : String) (sep : Char) : List String :=
  (lSplit sep s.data).map String.mk

/-- Everything after the first occurrence of `sep` (Python `s.split(sep, 1)[1]`,
meaningful when `sep` occurs in the list). -/
def afterSep (sep : Char) : List Char → List Char
  | [] => []
  | c :: rest => if c = sep then rest else afterSep sep rest

def strAfterSep (s : String) (sep : Char) : String := String.mk (afterSep sep s.data)

/-- Python `sep.join (parts)`. -/
def sJoin (sep : String) : List String → String
  | [] => ""
  | [x] => x
  | x :: y :: rest => x ++ sep ++ sJoin sep (y :: rest)

/-- Drop every leading occurrence of `c` (Python `s.lstrip (c)`). -/
def lstripChar (s : String) (c : Char) : String :=
  String.mk (s.data.dropWhile (· = c))

/-- Drop every trailing occurrence of `c` (Python `s.rstrip (c)`). -/
def rstripChar (s : String) (c : Char) : String :=
  String.mk (rdropP (· = c) s.data)

/-- Drop every leading char belonging to the two-char set (Python `s.lstrip (cs)`). -/
def lstripSet2 (s : String) (c₁ c₂ : Char) : String :=
  String.mk (s.data.dropWhile (fun c => c = c₁ || c = c₂))

/-! ## JSON values and decoding

JSON (and, where it leaks through, Python) values produced by `json.loads`.
Mappings keep insertion order, like Python dicts; the repository only ever
produces objects with distinct keys, so association-list lookup is the
first-match lookup. -/

inductive JVal where
  | jnull
  | jbool (b : Bool)
  | jnum (n : Int)
  | jstr (s : String)
  | jarr (xs : List JVal)
  | jdict (fields : List (String × JVal))

/-- Python truthiness of a decoded value. -/
def jTruthy : JVal → Bool
  | .jnull => false
  | .jbool b => b
  | .jnum n => n ≠ 0
  | .jstr s => s ≠ ""
  | .jarr xs => !xs.isEmpty
  | .jdict fields => !fields.isEmpty

/-- JSON insignificant whitespace. -/
def jsonWS (c : Char) : Bool := c = ' ' || c = '\t' || c = '\n' || c = '\r'

/-- The JSON string-escape table; the model covers the escapes the
repository's metadata uses (no `\u` sequences). -/
def escTable : List (Char × Char) :=
  [('"', '"'), ('\\', '\\'), ('/', '/'), ('n', '\n'),
   ('t', '\t'), ('r', '\r'), ('b', '\x08'), ('f', '\x0c')]

def escChar (e : Char) : Option Char := escTable.lookup e

/-- Body of a JSON string literal, after the opening quote; returns the
decoded chars and the input after the closing quote. -/
def jStrBody : List Char → Option (List Char × List Char)
  | [] => none
  | '\\' :: e :: rest => do
    let c ← escChar e
    let (s, r) ← jStrBody rest
    some (c :: s, r)
  | c :: rest =>
    if c = '"' then some ([], rest)
    else do
      let (s, r) ← jStrBody rest
      some (c :: s, r)

def jDigit (c : Char) : Bool := '0' ≤ c && c ≤ '9'

def jDigitsToNat (acc : Nat) : List Char → Nat
  | [] => acc
  | c :: rest => jDigitsToNat (acc * 10 + (c.toNat - '0'.toNat)) rest

/-- Integer literal (the model restricts JSON numbers to integers; the
repository's manifests and metadata never carry fractional numbers into
the code under verification). -/
def jNum (cs : List Char) : Option (Int × List Char) :=
  let (neg, cs') := match cs with
    | '-' :: rest => (true, rest)
    | _ => (false, cs)
  let digits := cs'.takeWhile jDigit
  if digits.isEmpty then none
  else
    let n : Int := Int.ofNat (jDigitsToNat 0 digits)
    some (if neg then -n else n, cs'.dropWhile jDigit)

mutual

/-- Recursive-descent JSON value, fuel-bounded. -/
def jVal : Nat → List Char → Option (JVal × List Char)
  | 0, _ => none
  | fuel + 1, cs =>
    match cs.dropWhile jsonWS with
    | [] => none
    | '{' :: rest => jObj fuel (rest.dropWhile jsonWS) true []
    | '[' :: rest => jArrEls fuel (rest.dropWhile jsonWS) true []
    | '"' :: rest => (jStrBody rest).map (fun p => (.jstr (String.mk p.1), p.2))
    | 't' :: 'r' :: 'u' :: 'e' :: rest => some (.jbool true, rest)
    | 'f' :: 'a' :: 'l' :: 's' :: 'e' :: rest => some (.jbool false, rest)
    | 'n' :: 'u' :: 'l' :: 'l' :: rest => some (.jnull, rest)
    | other => (jNum other).map (fun p => (.jnum p.1, p.2))

/-- Object members; `first` is true before any member has been read. -/
def jObj : Nat → List Char → Bool → List (String × JVal) → Option (JVal × List Char)
  | 0, _, _, _ => none
  | _ + 1, '}' :: rest, true, acc => some (.jdict acc.reverse, rest)
  | fuel + 1, cs, _, acc =>
    match cs.dropWhile jsonWS with
    | '"' :: rest => do
      let (k, r₁) ← jStrBody rest
      match r₁.dropWhile jsonWS with
      | ':' :: r₂ => do
        let (v, r₃) ← jVal fuel r₂
        match r₃.dropWhile jsonWS with
        | ',' :: r₄ => jObj fuel (r₄.dropWhile jsonWS) false ((String.mk k, v) :: acc)
        | '}' :: r₄ => some (.jdict ((String.mk k, v) :: acc).reverse, r₄)
        | _ => none
      | _ => none
    | _ => none

/-- Array elements; `first` is true before any element has been read. -/
def jArrEls : Nat → List Char → Bool → List JVal → Option (JVal × List Char)
  | 0, _, _, _ => none
  | _ + 1, ']' :: rest, true, acc => some (.jarr acc.reverse, rest)
  | fuel + 1, cs, _, acc => do
    let (v, r₁) ← jVal fuel cs
    match r₁.dropWhile jsonWS with
    | ',' :: r₂ => jArrEls fuel r₂ false (v :: acc)
    | ']' :: r₂ => some (.jarr (acc.reverse ++ [v]), r₂)
    | _ => none

end

/-- `app/utils.py safe_json_load`: `json.loads` returning `none` on any failure,
including trailing garbage. -/
def safe_json_load (s : String) : Option JVal :=
  match jVal (s.data.length + 1) s.data with
  | some (v, rest) => if (rest.dropWhile jsonWS).isEmpty then some v else none
  | none => none

-- Python `str(·)` applied to a decoded JSON value, as used by
-- `extract_positive_prompt` (`str(parsed[key])`).  Strings pass through
-- unchanged; containers render with Python `repr` quoting.
mutual

def pyStr : JVal → String
  | .jnull => "None"
  | .jbool true => "True"
  | .jbool false => "False"
  | .jnum n => toString n
  | .jstr s => s
  | .jarr xs => "[" ++ pyStrList xs ++ "]"
  | .jdict fields => "\x7b" ++ pyStrDict fields ++ "\x7d"

def pyStrRepr : JVal → String
  | .jnull => "None"
  | .jbool true => "True"
  | .jbool false => "False"
  | .jnum n => toString n
  | .jstr s => "'" ++ s ++ "'"
  | .jarr xs => "[" ++ pyStrList xs ++ "]"
  | .jdict fields => "\x7b" ++ pyStrDict fields ++ "\x7d"

def pyStrList : List JVal → String
  | [] => ""
  | [x] => pyStrRepr x
  | x :: y :: rest => pyStrRepr x ++ ", " ++ pyStrList (y :: rest)

def pyStrDict : List (String × JVal) → String
  | [] => ""
  | [(k, v)] => "'" ++ k ++ "': " ++ pyStrRepr v
  | (k, v) :: kv' :: rest => "'" ++ k ++ "': " ++ pyStrRepr v ++ ", " ++ pyStrDict (kv' :: rest)

end

/-! ## The record model (`app/models.py`) and Python call semantics -/

/-- Exceptions the embedded code can raise. -/
inductive PyErr where
  | typeError
  | attributeError
  | jsonDecodeError
  deriving DecidableEq

/-- `app/models.py ImageEntry`: the dataclass's declared fields with their
defaults.  `extras` models dynamic instance attributes assigned after
construction (plain attribute assignment is legal on a slot-less dataclass);
they are invisible to `to_jsonl` and to `__init__`. -/
structure ImageEntry where
  id : String
  original_name : String
  dataset_filename : String
  full_path : String
  prompt : String := ""
  image_data : String := ""
  modified : Bool := false
  source : String := ""
  debug_info : Option JVal := none
  extras : List (String × JVal) := []

/-- The keyword parameters accepted by the generated `ImageEntry.__init__`:
exactly the declared dataclass fields, in declaration order. -/
def ImageEntry.fieldNames : List String :=
  ["id", "original_name", "dataset_filename", "full_path",
   "prompt", "image_data", "modified", "source", "debug_info"]

/-- Read an optional string field from keyword arguments. -/
def kwStr (kwargs : List (String × JVal)) (k : String) (dflt : String) : Option String :=
  match kwargs.lookup k with
  | none => some dflt
  | some (.jstr s) => some s
  | some _ => none

/-- Read an optional bool field from keyword arguments. -/
def kwBool (kwargs : List (String × JVal)) (k : String) (dflt : Bool) : Option Bool :=
  match kwargs.lookup k with
  | none => some dflt
  | some (.jbool b) => some b
  | some _ => none

/-- Read the optional `debug_info` field from keyword arguments. -/
def kwDebug (kwargs : List (String × JVal)) : Option (Option JVal) :=
  match kwargs.lookup "debug_info" with
  | none => some none
  | some .jnull => some none
  | some (.jdict m) => some (some (.jdict m))
  | some _ => none

/-- Read a required string field from keyword arguments (no default). -/
def kwReq (kwargs : List (String × JVal)) (k : String) : Option String :=
  match kwargs.lookup k with
  | some (.jstr s) => some s
  | _ => none

/-- Calling `ImageEntry(**kwargs)`.  Python raises `TypeError` for a keyword
that is not a declared field and for a missing required field; the model
additionally requires the declared annotation shapes, which every call in
the repository supplies. -/
def mkImageEntryKw (kwargs : List (String × JVal)) : Except PyErr ImageEntry :=
  if ¬ (kwargs.all (fun kv => ImageEntry.fieldNames.contains kv.1)) then
    .error .typeError
  else
    match kwReq kwargs "id", kwReq kwargs "original_name",
          kwReq kwargs "dataset_filename", kwReq kwargs "full_path" with
    | some i, some o, some dfn, some fp =>
      match kwStr kwargs "prompt" "", kwStr kwargs "image_data" "",
            kwBool kwargs "modified" false, kwStr kwargs "source" "",
            kwDebug kwargs with
      | some pr, some im, some md, some src, some dbg =>
        .ok { id := i, original_name := o, dataset_filename := dfn, full_path := fp,
              prompt := pr, image_data := im, modified := md, source := src,
              debug_info := dbg, extras := [] }
      | _, _, _, _, _ => .error .typeError
    | _, _, _, _ => .error .typeError

/-- `ImageEntry.to_jsonl`: the persisted mapping, in the literal's key order.
It emits `full_path` and does not emit any `rel_path`. -/
def ImageEntry.to_jsonl (e : ImageEntry) : List (String × JVal) :=
  [("id", .jstr e.id),
   ("original_name", .jstr e.original_name),
   ("dataset_filename", .jstr e.dataset_filename),
   ("full_path", .jstr e.full_path),
   ("prompt", .jstr e.prompt),
   ("modified", .jbool e.modified),
   ("source", .jstr e.source)]

/-! ## Manifest persistence (`app/persistence.py`)

A manifest text is modelled at the granularity `load_jsonl_data` works at:
the list of its newline-separated lines, each classified by what
`json.loads` does with it — whitespace-only (`blank`, filtered before
parsing), undecodable (`bad`), a JSON object (`obj`, keeping insertion
order), or decodable JSON that is not an object (`jother`). -/

inductive Line where
  | blank
  | bad (raw : String)
  | obj (fields : List (String × JVal))
  | jother (v : JVal)

/-- Python `Path(base_dir_str).is_absolute()` (POSIX). -/
def pyIsAbs (s : String) : Bool := strBegins s "/"

/-- The header's base-directory string computed by `save_to_jsonl_content`. -/
def base_dir_str (dataset_dir : String) : String :=
  let s := if dataset_dir = "" then "." else dataset_dir
  if ¬ pyIsAbs s ∧ ¬ strBegins s "./" then "./" ++ s else s

/-- The per-record line emitted by `save_to_jsonl_content`, together with the
`item.rel_path = ...` attribute assignment it performs (a dynamic attribute,
recorded in `extras`, since the dataclass declares no such field). -/
def saveRecord (bds : String) (e : ImageEntry) : Line × ImageEntry :=
  let rel := rstripChar bds '/' ++ "/" ++ lstripChar e.dataset_filename '/'
  let e' := { e with extras := e.extras ++ [("rel_path", .jstr rel)] }
  (.obj e'.to_jsonl, e')

/-- `app/persistence.py save_to_jsonl_content`.  Returns the emitted lines and
the (mutated) entries. -/
def save_to_jsonl_content (data : List ImageEntry) (dataset_dir : String)
    (resize_policy : Option JVal) : List Line × List ImageEntry :=
  let bds := base_dir_str dataset_dir
  let manifest : List (String × JVal) :=
    [("__manifest__", .jdict
      (("base_dir", JVal.jstr bds) ::
        (match resize_policy with
         | some rp => [("resize", rp)]
         | none => [])))]
  let recs := data.map (saveRecord bds)
  (Line.obj manifest :: recs.map Prod.fst, recs.map Prod.snd)

/-- The keyword arguments `load_jsonl_data` passes to `ImageEntry`, in call
order; they always include `rel_path`. -/
def loadKwargs (fields : List (String × JVal)) (full_path : String) : List (String × JVal) :=
  [("id", (fields.lookup "id").getD .jnull),
   ("original_name", (fields.lookup "original_name").getD (.jstr "")),
   ("dataset_filename",
     (fields.lookup "dataset_filename").getD ((fields.lookup "original_name").getD (.jstr ""))),
   ("full_path", .jstr full_path),
   ("rel_path", (fields.lookup "rel_path").getD .jnull),
   ("prompt", (fields.lookup "prompt").getD (.jstr "")),
   ("modified", (fields.lookup "modified").getD (.jbool false)),
   ("source", (fields.lookup "source").getD (.jstr "jsonl")),
   ("image_data", .jstr ""),
   ("debug_info", .jnull)]

/-- `str(Path(rel_path).resolve()) if rel_path else ""`; `resolve` abstracts
`Path.resolve` against the ambient working directory. -/
def loadFullPath (resolve : String → String) (relv : JVal) : Except PyErr String :=
  if jTruthy relv then
    match relv with
    | .jstr s => .ok (resolve s)
    | _ => .error .typeError
  else .ok ""

/-- One record line of `load_jsonl_data` (entry construction included). -/
def loadRecordLine (resolve : String → String) (fields : List (String × JVal)) :
    Except PyErr ImageEntry := do
  let fp ← loadFullPath resolve ((fields.lookup "rel_path").getD .jnull)
  mkImageEntryKw (loadKwargs fields fp)

/-- The loop of `load_jsonl_data` over the (blank-filtered) lines. -/
def loadGo (resolve : String → String) :
    List Line → List ImageEntry × JVal × Option JVal →
    Except PyErr (List ImageEntry × JVal × Option JVal)
  | [], acc => .ok acc
  | l :: rest, (entries, base_dir, resize) =>
    match l with
    | .blank => loadGo resolve rest (entries, base_dir, resize)
    | .bad _ => .error .jsonDecodeError
    | .jother v =>
      -- `"__manifest__" in data` / `data.get` on a non-dict: TypeError for
      -- non-iterables and indexing, AttributeError for `.get` on str/list.
      (match v with
       | .jstr s => if strInside "__manifest__" s then .error .typeError else .error .attributeError
       | .jarr xs =>
         if xs.any (fun x => match x with | .jstr s => s = "__manifest__" | _ => false)
         then .error .typeError else .error .attributeError
       | _ => .error .typeError)
    | .obj fields =>
      match fields.lookup "__manifest__" with
      | some (.jdict m) =>
        loadGo resolve rest
          (entries, (m.lookup "base_dir").getD (.jstr ""), m.lookup "resize")
      | some _ => .error .attributeError
      | none =>
        match loadRecordLine resolve fields with
        | .error e => .error e
        | .ok ent => loadGo resolve rest (entries ++ [ent], base_dir, resize)

/-- `app/persistence.py load_jsonl_data`. -/
def load_jsonl_data (resolve : String → String) (lines : List Line) :
    Except PyErr (List ImageEntry × JVal × Option JVal) :=
  loadGo resolve lines ([], .jstr "", none)

/-! ## Strategy A text parsing (`app/extractors.py parse_text_parameters`) -/

/-- The accumulation loop over the stripped lines: `pos_started` flag and
`buf`; a `positive prompt:` line (re)starts the buffer, then lines are
accumulated until one containing `':'` breaks; empty lines are passed over. -/
def ptpLoop : List String → Bool → List String → List String
  | [], _, buf => buf
  | l :: rest, started, buf =>
    if strBegins (pyLowerStr l) "positive prompt:" then
      ptpLoop rest true [pyStripStr (strAfterSep l ':')]
    else
      match started with
      | true =>
        if strInside ":" l then buf
        else if l ≠ "" then ptpLoop rest started (buf ++ [l])
        else ptpLoop rest started buf
      | false => ptpLoop rest started buf

/-- `app/extractors.py parse_text_parameters`. -/
def parse_text_parameters (parameters_data : String) : Option String :=
  let lines := (pySplit parameters_data '\n').map pyStripStr
  let buf := ptpLoop lines false []
  if buf.isEmpty then none else some (pyStripStr (sJoin " " buf))

/-! ## Strategy A (`app/extractors.py extract_positive_prompt`) -/

/-- The fixed, ordered key list tried against a decoded `parameters` mapping. -/
def recognizedKeys : List String :=
  ["Positive prompt", "positive prompt", "Positive Prompt",
   "positive_prompt", "prompt", "Prompt"]

/-- The fallback scan over all metadata values (`for k, v in meta.items()`):
any string value containing `Positive prompt` or `Negative prompt` is run
through the text parser; a truthy result is returned. -/
def metaScan : List (String × JVal) → Option String
  | [] => none
  | (_, v) :: rest =>
    match v with
    | .jstr s =>
      if strInside "Positive prompt" s || strInside "Negative prompt" s then
        match parse_text_parameters s with
        | some r => if r ≠ "" then some r else metaScan rest
        | none => metaScan rest
      else metaScan rest
    | _ => metaScan rest

/-- `app/extractors.py extract_positive_prompt`, with the image already opened:
`format` is `img.format` and `meta` is `img.info`. -/
def extract_positive_prompt (format : String) (meta : List (String × JVal)) :
    Option String :=
  if format ≠ "PNG" then none
  else
    match meta.lookup "parameters" with
    | some (.jstr s) =>
      match safe_json_load s with
      | some (.jdict d) =>
        match recognizedKeys.findSome? (fun k => d.lookup k) with
        | some v => some (pyStr v)
        | none => parse_text_parameters s
      | _ => parse_text_parameters s
    | _ => metaScan meta

/-! ## Prompt selection (`app/extractors.py extract_all_prompts`)

The selection logic of `extract_all_prompts`, with the two extraction calls
abstracted into their results: the Strategy-A candidate (possibly `None`)
and the Strategy-B candidate list, in that order. -/

/-- The nested `add` helper: skip falsy input, normalize, keep first
occurrence of each normalized value. -/
def addCand (acc : List String) (p : String) : List String :=
  if p = "" then acc
  else
    let np := normalize_prompt p
    if np ≠ "" && !acc.contains np then acc ++ [np] else acc

/-- The candidate list built by `extract_all_prompts`. -/
def promptCandidates (candA : Option String) (candsB : List String) : List String :=
  ((match candA with | none => [] | some p => [p]) ++ candsB).foldl addCand []

/-- Python `max(l, key=len)` for a nonempty list: first element of maximal
length wins ties. -/
def pyMaxByLen (c : String) (cs : List String) : String :=
  cs.foldl (fun best x => if best.length < x.length then x else best) c

/-- The value `extract_all_prompts` returns, as a function of the candidates. -/
def selectPrompt (candA : Option String) (candsB : List String) : String :=
  match promptCandidates candA candsB with
  | [] => ""
  | c :: cs => pyMaxByLen c cs

/-! ## The older copies in `dataset_ui.py` -/

/-- The line-oriented part of `dataset_ui.py extract_positive_prompt`
(lines 46-67): first `positive prompt:` line wins; its continuation stops at
the first following line that is empty or contains a colon. -/
def duInner : List String → String → String
  | [], acc => acc
  | l :: rest, acc =>
    let n := pyStripStr l
    if strInside ":" n || n = "" then acc
    else duInner rest (acc ++ " " ++ n)

def duOuter : List String → Option String
  | [] => none
  | l :: rest =>
    let t := pyStripStr l
    if strBegins (pyLowerStr t) "positive prompt:" then
      some (duInner rest (pyStripStr (strAfterSep t ':')))
    else duOuter rest

/-- `dataset_ui.py extract_positive_prompt`, text branch. -/
def duParseText (parameters_data : String) : Option String :=
  duOuter (pySplit parameters_data '\n')

/-! ## The dataset scanner (`app/app.py rescan_dataset_directory`)

Directory traversal and per-file I/O are abstracted: a discovered image file
is a `ScanFile` carrying the values the loop body computes from it
(`p.name`, `str(p.resolve())`, the relative-path computation with its
fallback, and the extracted prompt/thumbnail/content hash). -/

structure ScanFile where
  name : String
  resolvedPath : String
  /-- `str(full_path.relative_to(ds_path.resolve()))`, `none` when that
  computation raised and the code falls back to `p.name`. -/
  relName : Option String
  prompt : String
  thumb : String
  hashId : String

/-- `app/app.py _make_rel_path`. -/
def make_rel_path (dataset_dir_str dataset_filename : String) : String :=
  let base := rstripChar (rstripChar (pyStripStr dataset_dir_str) '/') '\\'
  let rel := lstripChar (lstripChar dataset_filename '/') '\\'
  let rel_path := if base ≠ "" then base ++ "/" ++ rel else rel
  if base ≠ "" && !pyIsAbs base && !strBegins rel_path "./" then
    "./" ++ lstripSet2 rel_path '.' '/'
  else rel_path

/-- The keyword arguments the scanner passes to `ImageEntry`, in call order
(`app/app.py` lines 116-127); they always include `rel_path`. -/
def scanKwargs (ds_str : String) (f : ScanFile) (dfn : String) : List (String × JVal) :=
  [("id", .jstr f.hashId),
   ("original_name", .jstr f.name),
   ("dataset_filename", .jstr dfn),
   ("full_path", .jstr f.resolvedPath),
   ("rel_path", .jstr (make_rel_path ds_str dfn)),
   ("image_data", .jstr f.thumb),
   ("prompt", .jstr f.prompt),
   ("modified", .jbool false),
   ("source", .jstr "rescanned_dataset"),
   ("debug_info", .jnull)]

/-- The keyword arguments the upload handler passes to `ImageEntry`
(`app/app.py` lines 175-186); they always include `rel_path`. -/
def uploadKwargs (ds_str : String) (hashId origName uniqueName fp thumb prompt : String) :
    List (String × JVal) :=
  [("id", .jstr hashId),
   ("original_name", .jstr origName),
   ("dataset_filename", .jstr uniqueName),
   ("full_path", .jstr fp),
   ("rel_path", .jstr (make_rel_path ds_str uniqueName)),
   ("image_data", .jstr thumb),
   ("prompt", .jstr prompt),
   ("modified", .jbool false),
   ("source", .jstr "uploaded_to_dataset"),
   ("debug_info", .jnull)]

/-- State of a scan: the session record list (of `entry.__dict__` mappings)
together with the dedup sets and the counters. -/
structure ScanState where
  image_data : List (List (String × JVal))
  fns : List String
  fps : List String
  newImages : Nat
  warnings : Nat

/-- Truthy `dataset_filename` values of the session records (the
`existing_dataset_fns` set; values are strings in every record the
application stores). -/
def sessionFns (image_data : List (List (String × JVal))) : List String :=
  image_data.filterMap (fun d =>
    match d.lookup "dataset_filename" with
    | some (.jstr s) => if s ≠ "" then some s else none
    | _ => none)

/-- Truthy `full_path` values of the session records. -/
def sessionFps (image_data : List (List (String × JVal))) : List String :=
  image_data.filterMap (fun d =>
    match d.lookup "full_path" with
    | some (.jstr s) => if s ≠ "" then some s else none
    | _ => none)

/-- The dict stored into the session for a constructed entry
(`img_entry.__dict__`). -/
def entryDict (e : ImageEntry) : List (String × JVal) :=
  [("id", .jstr e.id),
   ("original_name", .jstr e.original_name),
   ("dataset_filename", .jstr e.dataset_filename),
   ("full_path", .jstr e.full_path),
   ("prompt", .jstr e.prompt),
   ("image_data", .jstr e.image_data),
   ("modified", .jbool e.modified),
   ("source", .jstr e.source),
   ("debug_info", (e.debug_info).getD .jnull)] ++ e.extras

/-- One iteration of the scanner's `for` body: dedup-skip, or construct and
append — the `except` clause turning any raise into a warning. -/
def scanStep (ds_str : String) (st : ScanState) (f : ScanFile) : ScanState :=
  let dfn := f.relName.getD f.name
  if st.fns.contains dfn || st.fps.contains f.resolvedPath then st
  else
    match mkImageEntryKw (scanKwargs ds_str f dfn) with
    | .ok e =>
      { st with image_data := st.image_data ++ [entryDict e],
                fns := st.fns ++ [dfn],
                fps := st.fps ++ [f.resolvedPath],
                newImages := st.newImages + 1 }
    | .error _ => { st with warnings := st.warnings + 1 }

/-- `app/app.py rescan_dataset_directory` over the discovered files (the
result of `_safe_iter_images`, already filtered to image extensions, for
whichever `recursive` flag). -/
def rescan_dataset_directory (ds_str : String)
    (image_data : List (List (String × JVal))) (files : List ScanFile) : ScanState :=
  files.foldl (scanStep ds_str)
    { image_data := image_data, fns := sessionFns image_data,
      fps := sessionFps image_data, newImages := 0, warnings := 0 }

/-! ## The dataset scanner in `dataset_ui.py` (lines 283-340)

This older copy stores plain dicts and works: a discovered directory entry
is a `DUFile` carrying the filename and the outcomes of the per-file I/O
(`extract_all_prompts`, `image_to_base64` — the latter returns `""` on any
failure — and the freshly drawn uuid).  The directory is assumed unchanged
between runs, so these outcomes are fixed per file. -/

structure DUFile where
  filename : String
  prompt : String
  thumb : String
  newId : String

/-- The record dict `dataset_ui.py` appends for a newly added file. -/
structure DUEntry where
  id : String
  original_name : String
  dataset_filename : String
  full_path : String
  image_data : String
  prompt : String
  modified : Bool
  source : String

/-- `filename.lower().endswith(('.png', '.jpg', '.jpeg'))`. -/
def isImageName (filename : String) : Bool :=
  let lo := pyLowerStr filename
  strEnds lo ".png" || strEnds lo ".jpg" || strEnds lo ".jpeg"

/-- `os.path.join(dataset_dir, filename)` (POSIX, directory without trailing
separator, as the application configures it). -/
def joinPath (dir filename : String) : String := dir ++ "/" ++ filename

/-- Truthy `dataset_filename` values (the `existing_dataset_files` set). -/
def duFns (image_data : List DUEntry) : List String :=
  image_data.filterMap (fun e =>
    if e.dataset_filename ≠ "" then some e.dataset_filename else none)

/-- Truthy `full_path` values (the `existing_full_paths` set). -/
def duFps (image_data : List DUEntry) : List String :=
  image_data.filterMap (fun e =>
    if e.full_path ≠ "" then some e.full_path else none)

def mkDUEntry (abspath : String → String) (ds : String) (f : DUFile) : DUEntry :=
  { id := f.newId, original_name := f.filename, dataset_filename := f.filename,
    full_path := abspath (joinPath ds f.filename), image_data := f.thumb,
    prompt := f.prompt, modified := false, source := "rescanned_dataset" }

/-- The `for filename in os.listdir(...)` loop; the dedup sets are computed
once before the loop and never updated inside it, exactly as in the source. -/
def duGo (abspath : String → String) (ds : String) (fns fps : List String) :
    List DUFile → List DUEntry × Nat → List DUEntry × Nat
  | [], acc => acc
  | f :: rest, (entries, n) =>
    if ¬ isImageName f.filename then duGo abspath ds fns fps rest (entries, n)
    else if fns.contains f.filename || fps.contains (joinPath ds f.filename) then
      duGo abspath ds fns fps rest (entries, n)
    else if f.thumb ≠ "" then
      duGo abspath ds fns fps rest (entries ++ [mkDUEntry abspath ds f], n + 1)
    else duGo abspath ds fns fps rest (entries, n)

/-- `dataset_ui.py rescan_dataset_directory`: returns the updated session
list and the count of newly added records. -/
def duRescan (abspath : String → String) (ds : String) (dir : List DUFile)
    (image_data : List DUEntry) : List DUEntry × Nat :=
  duGo abspath ds (duFns image_data) (duFps image_data) dir (image_data, 0)

/-! ## Content identity (`app/utils.py file_hash`)

The file is a byte sequence; `path.open("rb")` is abstracted into a
path-to-bytes map and the digest into an arbitrary function of the
accumulated bytes (hashlib semantics: `update` extends the message,
`hexdigest` digests the whole message). -/

/-- `iter(lambda: f.read(8192), b"")`: the successive 8192-byte chunks. -/
def readChunks : List Nat → List (List Nat)
  | [] => []
  | b :: t => (b :: t).take 8192 :: readChunks ((b :: t).drop 8192)
termination_by bs => bs.length
decreasing_by
  simp only [List.length_drop, List.length_cons]
  omega

/-- `app/utils.py file_hash`: stream the file in 8192-byte chunks through the
digest. -/
def file_hash (digest : List Nat → String) (fs : String → List Nat) (path : String) :
    String :=
  digest ((readChunks (fs path)).foldl (· ++ ·) [])

/-! ## Specification-side definitions

These two are written from the spec's words, for comparison with the code's
selector (claim C6): order-preserving first-occurrence deduplication, and
the normalized nonempty candidates in first-seen order. -/

def dedupFirstSpec : List String → List String
  | [] => []
  | x :: xs => x :: dedupFirstSpec (xs.filter (fun y => y ≠ x))
termination_by l => l.length
decreasing_by
  simp only [List.length_cons]
  exact Nat.lt_succ_of_le (List.length_filter_le _ _)

def normalizedCandidatesSpec (candA : Option String) (candsB : List String) :
    List String :=
  ((match candA with | none => [] | some p => [p]) ++ candsB).filterMap
    (fun p =>
      if p = "" then none
      else
        let np := normalize_prompt p
        if np = "" then none else some np)

/-- A concrete record, for evaluating the persistence pipeline. -/
def exampleEntry : ImageEntry :=
  { id := "c0ffee", original_name := "orig.png", dataset_filename := "a.png",
    full_path := "/abs/ds/a.png", prompt := "a red fox", image_data := "THUMB",
    modified := false, source := "rescanned_dataset" }

/-! # Theorems -/

/-! ## Shape of `normalize_prompt` output (claim C10) -/

theorem headOK_dropWhile (l : List Char) : headOK (l.dropWhile pyIsWS) := by
  induction l with
  | nil => simp [headOK]
  | cons c t ih =>
    by_cases h : pyIsWS c
    · simpa [List.dropWhile_cons, h] using ih
    · simp [List.dropWhile_cons, h, headOK]

theorem headOK_append {xs : List Char} (ys : List Char) (h : xs ≠ []) :
    headOK (xs ++ ys) = headOK xs := by
  cases xs with
  | nil => exact absurd rfl h
  | cons c t => simp [headOK]

theorem lastOK_cons_cons (x y : Char) (r : List Char) :
    lastOK (x :: y :: r) = lastOK (y :: r) := rfl

theorem lastOK_append_single : ∀ (xs : List Char) (c : Char),
    lastOK (xs ++ [c]) = !pyIsWS c
  | [], c => rfl
  | [x], c => rfl
  | x :: y :: ys, c => by
    rw [List.cons_append, List.cons_append, lastOK_cons_cons,
      ← List.cons_append, lastOK_append_single (y :: ys) c]

theorem headOK_reverse : ∀ l : List Char, headOK l.reverse = lastOK l
  | [] => rfl
  | [c] => rfl
  | c :: d :: t => by
    rw [lastOK_cons_cons, ← headOK_reverse (d :: t)]
    rw [List.reverse_cons]
    exact headOK_append [c] (by simp)

theorem lastOK_reverse (l : List Char) : lastOK l.reverse = headOK l := by
  rw [← headOK_reverse l.reverse, List.reverse_reverse]

theorem dropWhile_of_headOK {m : List Char} (h : headOK m) :
    m.dropWhile pyIsWS = m := by
  cases m with
  | nil => rfl
  | cons c t =>
    simp only [headOK] at h
    simp [List.dropWhile_cons, (by simpa using h : ¬ pyIsWS c = true)]

theorem rdropP_of_lastOK {m : List Char} (h : lastOK m) :
    rdropP pyIsWS m = m := by
  unfold rdropP
  rw [dropWhile_of_headOK (by rw [headOK_reverse]; exact h), List.reverse_reverse]

theorem headOK_rdropP {a : List Char} (h : headOK a) :
    headOK (rdropP pyIsWS a) := by
  cases a with
  | nil => simp [rdropP, headOK]
  | cons c t =>
    simp only [headOK] at h
    unfold rdropP
    rw [List.reverse_cons, List.dropWhile_append]
    split
    · simp [List.dropWhile_cons, (by simpa using h : ¬ pyIsWS c = true), headOK]
    · rw [List.reverse_append]
      simp [headOK, h]

theorem lastOK_rdropP {a : List Char} (_ : headOK a) :
    lastOK (rdropP pyIsWS a) := by
  unfold rdropP
  rw [lastOK_reverse]
  exact headOK_dropWhile a.reverse

theorem headOK_pyStripL (l : List Char) : headOK (pyStripL l) :=
  headOK_rdropP (headOK_dropWhile l)

theorem lastOK_pyStripL (l : List Char) : lastOK (pyStripL l) :=
  lastOK_rdropP (headOK_dropWhile l)

theorem pyStripL_of_good {m : List Char} (h₁ : headOK m) (h₂ : lastOK m) :
    pyStripL m = m := by
  unfold pyStripL
  rw [dropWhile_of_headOK h₁, rdropP_of_lastOK h₂]

theorem collapseWS_ne_nil : ∀ l : List Char, l ≠ [] → collapseWS l ≠ []
  | [], h => absurd rfl h
  | [c], _ => by simp only [collapseWS]; split <;> simp
  | c :: d :: rest, _ => by
    simp only [collapseWS]
    split
    · exact collapseWS_ne_nil (d :: rest) (by simp)
    · simp

theorem headOK_collapseWS_cons {d : Char} (rest : List Char) (h : ¬ pyIsWS d) :
    headOK (collapseWS (d :: rest)) := by
  cases rest with
  | nil => simp [collapseWS, h, headOK]
  | cons e r =>
    simp only [collapseWS]
    rw [if_neg (by simp [h])]
    simp [h, headOK]

theorem headOK_collapseWS {m : List Char} (h : headOK m) :
    headOK (collapseWS m) := by
  cases m with
  | nil => simp [collapseWS, headOK]
  | cons c t =>
    simp only [headOK] at h
    exact headOK_collapseWS_cons t (by simpa using h)

theorem lastOK_collapseWS : ∀ m : List Char, lastOK m → lastOK (collapseWS m)
  | [], _ => by simp [collapseWS, lastOK]
  | [c], h => by
    simp only [lastOK] at h
    simp [collapseWS, (by simpa using h : ¬ pyIsWS c = true), lastOK, h]
  | c :: d :: rest, h => by
    rw [lastOK_cons_cons] at h
    have ih := lastOK_collapseWS (d :: rest) h
    simp only [collapseWS]
    split
    · exact ih
    · rcases hne : collapseWS (d :: rest) with _ | ⟨z, zs⟩
      · exact absurd hne (collapseWS_ne_nil (d :: rest) (by simp))
      · rw [hne] at ih
        rw [lastOK_cons_cons]
        exact ih

theorem noRun_collapseWS : ∀ m : List Char, lastOK m → noRun (collapseWS m)
  | [], _ => by simp [collapseWS, noRun]
  | [c], h => by
    simp only [lastOK] at h
    simp [collapseWS, (by simpa using h : ¬ pyIsWS c = true), noRun, h]
  | c :: d :: rest, h => by
    rw [lastOK_cons_cons] at h
    have ih := noRun_collapseWS (d :: rest) h
    simp only [collapseWS]
    split
    · exact ih
    · rename_i hguard
      rcases hne : collapseWS (d :: rest) with _ | ⟨z, zs⟩
      · exact absurd hne (collapseWS_ne_nil (d :: rest) (by simp))
      · rw [hne] at ih
        simp only [noRun]
        refine (Bool.and_eq_true _ _).mpr ⟨?_, ih⟩
        by_cases hc : pyIsWS c
        · have hd : ¬ pyIsWS d := by
            intro hd
            exact hguard (by simp [hc, hd])
          have hz : ¬ pyIsWS z := by
            have := headOK_collapseWS_cons rest hd
            rw [hne] at this
            simpa [headOK] using this
          simp [hc, hz]
        · simp [hc]

theorem collapseWS_of_noRun : ∀ m : List Char, noRun m → collapseWS m = m
  | [], _ => rfl
  | [c], h => by
    simp only [noRun] at h
    simp [collapseWS, (by simpa using h : ¬ pyIsWS c = true)]
  | c :: d :: rest, h => by
    simp only [noRun, Bool.and_eq_true] at h
    obtain ⟨hg, ht⟩ := h
    have ih := collapseWS_of_noRun (d :: rest) ht
    by_cases hc : pyIsWS c
    · have hcd : c = ' ' ∧ ¬ pyIsWS d := by
        rcases (Bool.or_eq_true _ _).mp hg with h' | h'
        · exact absurd hc (by simpa using h')
        · obtain ⟨h₁, h₂⟩ := (Bool.and_eq_true _ _).mp h'
          exact ⟨by simpa using h₁, by simpa using h₂⟩
      simp only [collapseWS]
      rw [if_neg (by simp [hcd.2]), if_pos hc, ih, hcd.1]
    · simp only [collapseWS]
      rw [if_neg (by simp [hc]), if_neg hc, ih]

/-- Claim C10: `normalize_prompt` trims leading/trailing whitespace and
collapses every whitespace run (newlines included) to one space — its output
starts with a non-whitespace character and contains whitespace only as
single interior `' '` characters — and it is idempotent:
`normalize_prompt (normalize_prompt x) = normalize_prompt x` for every `x`. -/
theorem c10_normalize_shape_and_idempotent (s : String) :
    headOK (normalize_prompt s).data ∧ noRun (normalize_prompt s).data ∧
    normalize_prompt (normalize_prompt s) = normalize_prompt s := by
  have hdata : (normalize_prompt s).data = collapseWS (pyStripL s.data) := rfl
  have hhead : headOK (collapseWS (pyStripL s.data)) :=
    headOK_collapseWS (headOK_pyStripL s.data)
  have hlast : lastOK (collapseWS (pyStripL s.data)) :=
    lastOK_collapseWS _ (lastOK_pyStripL s.data)
  have hrun : noRun (collapseWS (pyStripL s.data)) :=
    noRun_collapseWS _ (lastOK_pyStripL s.data)
  refine ⟨by rw [hdata]; exact hhead, by rw [hdata]; exact hrun, ?_⟩
  show String.mk (collapseWS (pyStripL (normalize_prompt s).data)) = normalize_prompt s
  rw [hdata, pyStripL_of_good hhead hlast, collapseWS_of_noRun _ hrun]
  rfl

/-! ## The missing `rel_path` field (claims C1, C2, C3) -/

theorem mkImageEntryKw_rel_path {kwargs : List (String × JVal)} {v : JVal}
    (h : ("rel_path", v) ∈ kwargs) :
    mkImageEntryKw kwargs = .error .typeError := by
  have hall : ¬ (kwargs.all (fun kv => ImageEntry.fieldNames.contains kv.1) = true) := by
    intro hall
    have := List.all_eq_true.mp hall ("rel_path", v) h
    simp [ImageEntry.fieldNames] at this
  unfold mkImageEntryKw
  rw [if_pos (by simpa using hall)]

theorem loadRecordLine_err (resolve : String → String)
    (fields : List (String × JVal)) :
    ∃ e, loadRecordLine resolve fields = .error e := by
  unfold loadRecordLine
  rcases hfp : loadFullPath resolve ((fields.lookup "rel_path").getD .jnull) with e | fp
  · exact ⟨e, rfl⟩
  · refine ⟨.typeError, ?_⟩
    show mkImageEntryKw (loadKwargs fields fp) = .error .typeError
    exact mkImageEntryKw_rel_path (v := (fields.lookup "rel_path").getD .jnull)
      (by simp [loadKwargs])

theorem loadGo_record_err (resolve : String → String) :
    ∀ (ls : List Line) (acc : List ImageEntry × JVal × Option JVal),
    (∃ fields, Line.obj fields ∈ ls ∧ fields.lookup "__manifest__" = none) →
    ∃ e, loadGo resolve ls acc = .error e
  | [], _, h => by
    obtain ⟨fields, hmem, _⟩ := h
    exact absurd hmem (List.not_mem_nil _)
  | l :: rest, (entries, base, rz), h => by
    obtain ⟨fields, hmem, hman⟩ := h
    cases l with
    | blank =>
      have hrest : Line.obj fields ∈ rest := by
        rcases List.mem_cons.mp hmem with h' | h'
        · exact absurd h' (by simp)
        · exact h'
      exact loadGo_record_err resolve rest _ ⟨fields, hrest, hman⟩
    | bad raw => exact ⟨.jsonDecodeError, rfl⟩
    | jother v =>
      cases v with
      | jstr s =>
        by_cases hin : strInside "__manifest__" s
        · exact ⟨.typeError, by simp [loadGo, hin]⟩
        · exact ⟨.attributeError, by simp [loadGo, hin]⟩
      | jarr xs =>
        by_cases hin :
            xs.any (fun x => match x with | .jstr s => s = "__manifest__" | _ => false) = true
        · exact ⟨.typeError, by simp [loadGo, hin]⟩
        · exact ⟨.attributeError, by simp [loadGo, hin]⟩
      | jnull => exact ⟨.typeError, rfl⟩
      | jbool b => exact ⟨.typeError, rfl⟩
      | jnum n => exact ⟨.typeError, rfl⟩
      | jdict m => exact ⟨.typeError, rfl⟩
    | obj f =>
      rcases hlk : f.lookup "__manifest__" with _ | v
      · rcases loadRecordLine_err resolve f with ⟨e, he⟩
        exact ⟨e, by simp [loadGo, hlk, he]⟩
      · cases v with
        | jdict m =>
          have hrest : Line.obj fields ∈ rest := by
            rcases List.mem_cons.mp hmem with h' | h'
            · obtain rfl : fields = f := by injection h'
              rw [hman] at hlk
              cases hlk
            · exact h'
          rcases loadGo_record_err resolve rest
              (entries, (m.lookup "base_dir").getD (.jstr ""), m.lookup "resize")
              ⟨fields, hrest, hman⟩ with ⟨e, he⟩
          exact ⟨e, by simp [loadGo, hlk, he]⟩
        | jnull => exact ⟨.attributeError, by simp [loadGo, hlk]⟩
        | jbool b => exact ⟨.attributeError, by simp [loadGo, hlk]⟩
        | jnum n => exact ⟨.attributeError, by simp [loadGo, hlk]⟩
        | jstr s => exact ⟨.attributeError, by simp [loadGo, hlk]⟩
        | jarr xs => exact ⟨.attributeError, by simp [loadGo, hlk]⟩

theorem scanStep_cases (ds_str : String) (st : ScanState) (f : ScanFile) :
    (st.fns.contains (f.relName.getD f.name) || st.fps.contains f.resolvedPath) = true ∧
      scanStep ds_str st f = st ∨
    (st.fns.contains (f.relName.getD f.name) || st.fps.contains f.resolvedPath) = false ∧
      scanStep ds_str st f = { st with warnings := st.warnings + 1 } := by
  by_cases hdup : (st.fns.contains (f.relName.getD f.name) ||
      st.fps.contains f.resolvedPath) = true
  · refine Or.inl ⟨hdup, ?_⟩
    unfold scanStep
    rw [if_pos hdup]
  · refine Or.inr ⟨by simpa using hdup, ?_⟩
    have hmk : mkImageEntryKw (scanKwargs ds_str f (f.relName.getD f.name)) =
        .error .typeError :=
      mkImageEntryKw_rel_path
        (v := .jstr (make_rel_path ds_str (f.relName.getD f.name)))
        (by simp [scanKwargs])
    unfold scanStep
    rw [if_neg hdup, hmk]

theorem scanFold (ds_str : String) :
    ∀ (files : List ScanFile) (st : ScanState),
    (files.foldl (scanStep ds_str) st).image_data = st.image_data ∧
    (files.foldl (scanStep ds_str) st).fns = st.fns ∧
    (files.foldl (scanStep ds_str) st).fps = st.fps ∧
    (files.foldl (scanStep ds_str) st).newImages = st.newImages ∧
    (files.foldl (scanStep ds_str) st).warnings = st.warnings +
      files.countP (fun f => !(st.fns.contains (f.relName.getD f.name) ||
        st.fps.contains f.resolvedPath))
  | [], st => by simp
  | f :: rest, st => by
    rcases scanStep_cases ds_str st f with ⟨hdup, hstep⟩ | ⟨hdup, hstep⟩
    · have ih := scanFold ds_str rest st
      simp only [List.foldl_cons, hstep, List.countP_cons, hdup]
      simpa using ih
    · have ih := scanFold ds_str rest { st with warnings := st.warnings + 1 }
      simp only [List.foldl_cons, hstep, List.countP_cons, hdup]
      simp only [Bool.not_false]
      obtain ⟨i1, i2, i3, i4, i5⟩ := ih
      refine ⟨i1, i2, i3, i4, ?_⟩
      rw [i5]
      simp
      omega

/-- Claim C2: the `ImageEntry` dataclass declares no `rel_path` field, so any
construction passing a `rel_path` keyword — as the loader's, the scanner's
and the upload handler's calls all do — raises `TypeError`; consequently
`load_jsonl_data` raises on any input containing a record line, and the
scanner's per-file handler turns every non-deduplicated file into a warning,
never adding a record. -/
theorem c2_rel_path_typeerror :
    ("rel_path" ∉ ImageEntry.fieldNames) ∧
    (∀ (kwargs : List (String × JVal)) (v : JVal), ("rel_path", v) ∈ kwargs →
      mkImageEntryKw kwargs = .error .typeError) ∧
    (∀ (fields : List (String × JVal)) (full_path : String),
      mkImageEntryKw (loadKwargs fields full_path) = .error .typeError) ∧
    (∀ (ds_str : String) (f : ScanFile) (dfn : String),
      mkImageEntryKw (scanKwargs ds_str f dfn) = .error .typeError) ∧
    (∀ (ds_str hashId origName uniqueName fp thumb prompt : String),
      mkImageEntryKw
        (uploadKwargs ds_str hashId origName uniqueName fp thumb prompt) =
        .error .typeError) ∧
    (∀ (resolve : String → String) (ls : List Line),
      (∃ fields, Line.obj fields ∈ ls ∧ fields.lookup "__manifest__" = none) →
      ∃ e, load_jsonl_data resolve ls = .error e) ∧
    (∀ (ds_str : String) (image_data : List (List (String × JVal)))
        (files : List ScanFile),
      (rescan_dataset_directory ds_str image_data files).newImages = 0 ∧
      (rescan_dataset_directory ds_str image_data files).image_data = image_data ∧
      (rescan_dataset_directory ds_str image_data files).warnings =
        files.countP (fun f =>
          !((sessionFns image_data).contains (f.relName.getD f.name) ||
            (sessionFps image_data).contains f.resolvedPath))) := by
  refine ⟨by decide, ?_, ?_, ?_, ?_, ?_, ?_⟩
  · exact fun kwargs v h => mkImageEntryKw_rel_path h
  · exact fun fields fp =>
      mkImageEntryKw_rel_path (v := (fields.lookup "rel_path").getD .jnull)
        (by simp [loadKwargs])
  · exact fun ds f dfn =>
      mkImageEntryKw_rel_path (v := .jstr (make_rel_path ds dfn)) (by simp [scanKwargs])
  · exact fun ds h o u fp t p =>
      mkImageEntryKw_rel_path (v := .jstr (make_rel_path ds u)) (by simp [uploadKwargs])
  · exact fun resolve ls h => loadGo_record_err resolve ls _ h
  · intro ds image_data files
    obtain ⟨i1, _, _, i4, i5⟩ := scanFold ds files
      { image_data := image_data, fns := sessionFns image_data,
        fps := sessionFps image_data, newImages := 0, warnings := 0 }
    exact ⟨i4, i1, by simpa using i5⟩

theorem c2_rel_path_typeerror_witness :
    mkImageEntryKw [("rel_path", .jstr "./ds/a.png")] = .error .typeError ∧
    (∃ e, load_jsonl_data id [Line.obj [("id", .jstr "x")]] = .error e) ∧
    (rescan_dataset_directory "./ds" []
      [{ name := "a.png", resolvedPath := "/abs/ds/a.png", relName := some "a.png",
         prompt := "p", thumb := "t", hashId := "h" }]).newImages = 0 := by
  refine ⟨?_, ?_, ?_⟩
  · exact c2_rel_path_typeerror.2.1 _ (.jstr "./ds/a.png") (by simp)
  · exact c2_rel_path_typeerror.2.2.2.2.2.1 id _ ⟨[("id", .jstr "x")], by simp, rfl⟩
  · exact (c2_rel_path_typeerror.2.2.2.2.2.2 "./ds" [] _).1

/-- Claim C1 (code bug): the round-trip `load(save(R, d))` does not reproduce
`R` — it raises.  At a concrete one-record collection and base directory
`"./data"`, loading the text produced by saving returns `TypeError`:
`load_jsonl_data` passes the `rel_path` keyword to `ImageEntry`, which
declares no such field (and the saved record line carries `full_path`, not
`rel_path`, contradicting `save_to_jsonl_content`'s documented format). -/
theorem c1_roundtrip_raises :
    load_jsonl_data id (save_to_jsonl_content [exampleEntry] "./data" none).1 =
      .error .typeError ∧
    (∀ r, load_jsonl_data id (save_to_jsonl_content [exampleEntry] "./data" none).1 ≠
      .ok r) := by
  refine ⟨rfl, ?_⟩
  intro r h
  rw [(rfl :
    load_jsonl_data id (save_to_jsonl_content [exampleEntry] "./data" none).1 =
      .error .typeError)] at h
  cases h

/-- Claim C3 (code bug): the record line emitted by `save_to_jsonl_content`
carries exactly `id`, `original_name`, `dataset_filename`, `full_path`,
`prompt`, `modified`, `source` — it contains `full_path` and does not
contain `rel_path`, although the function's own docstring promises the
opposite (`rel_path` persisted, `full_path` not). -/
theorem c3_emitted_fields :
    (save_to_jsonl_content [exampleEntry] "./data" none).1 =
      [Line.obj [("__manifest__", .jdict [("base_dir", .jstr "./data")])],
       (saveRecord "./data" exampleEntry).1] ∧
    ((saveRecord "./data" exampleEntry).2.to_jsonl).map Prod.fst =
      ["id", "original_name", "dataset_filename", "full_path", "prompt",
       "modified", "source"] ∧
    "full_path" ∈ ((saveRecord "./data" exampleEntry).2.to_jsonl).map Prod.fst ∧
    "rel_path" ∉ ((saveRecord "./data" exampleEntry).2.to_jsonl).map Prod.fst ∧
    (saveRecord "./data" exampleEntry).2.extras =
      [("rel_path", .jstr "./data/a.png")] := by
  exact ⟨rfl, rfl, by decide, by decide, rfl⟩

/-! ## Loader tolerance (claim C4) -/

theorem loadGo_blank_mid (resolve : String → String) (l₂ : List Line) :
    ∀ (l₁ : List Line) (acc : List ImageEntry × JVal × Option JVal),
    loadGo resolve (l₁ ++ Line.blank :: l₂) acc = loadGo resolve (l₁ ++ l₂) acc
  | [], acc => by obtain ⟨entries, base, rz⟩ := acc; rfl
  | a :: l₁, acc => by
    obtain ⟨entries, base, rz⟩ := acc
    cases a with
    | blank => exact loadGo_blank_mid resolve l₂ l₁ _
    | bad raw => rfl
    | jother v => rfl
    | obj f =>
      show loadGo resolve (Line.obj f :: (l₁ ++ Line.blank :: l₂)) _ =
        loadGo resolve (Line.obj f :: (l₁ ++ l₂)) _
      rcases hlk : f.lookup "__manifest__" with _ | v
      · simp only [loadGo, hlk]
        rcases hrr : loadRecordLine resolve f with e | ent
        · rfl
        · exact loadGo_blank_mid resolve l₂ l₁ _
      · cases v with
        | jdict m =>
          simp only [loadGo, hlk]
          exact loadGo_blank_mid resolve l₂ l₁ _
        | jnull => simp only [loadGo, hlk]
        | jbool b => simp only [loadGo, hlk]
        | jnum n => simp only [loadGo, hlk]
        | jstr s => simp only [loadGo, hlk]
        | jarr xs => simp only [loadGo, hlk]

theorem loadGo_headers_bad (resolve : String → String) (s : String) (ls : List Line) :
    ∀ (hs : List Line) (acc : List ImageEntry × JVal × Option JVal),
    (∀ l ∈ hs, l = Line.blank ∨ ∃ f m, l = Line.obj f ∧
      f.lookup "__manifest__" = some (.jdict m)) →
    loadGo resolve (hs ++ Line.bad s :: ls) acc = .error .jsonDecodeError
  | [], acc, _ => by obtain ⟨entries, base, rz⟩ := acc; rfl
  | a :: hs, acc, h => by
    obtain ⟨entries, base, rz⟩ := acc
    have htail := fun l hl => h l (List.mem_cons_of_mem a hl)
    rcases h a (List.mem_cons_self a hs) with rfl | ⟨f, m, rfl, hlk⟩
    · exact loadGo_headers_bad resolve s ls hs _ htail
    · show loadGo resolve (Line.obj f :: (hs ++ Line.bad s :: ls)) _ = _
      simp only [loadGo, hlk]
      exact loadGo_headers_bad resolve s ls hs _ htail

theorem loadGo_all_blank (resolve : String → String) :
    ∀ (ls : List Line) (acc : List ImageEntry × JVal × Option JVal),
    (∀ l ∈ ls, l = Line.blank) → loadGo resolve ls acc = .ok acc
  | [], acc, _ => by obtain ⟨entries, base, rz⟩ := acc; rfl
  | a :: ls, acc, h => by
    obtain ⟨entries, base, rz⟩ := acc
    obtain rfl := h a (List.mem_cons_self a ls)
    exact loadGo_all_blank resolve ls _ (fun l hl => h l (List.mem_cons_of_mem _ hl))

/-- Claim C4 counterexample: a line that fails to parse as JSON is not
skipped.  On the two-line input (a well-formed header for base directory
`"./d"`, then an undecodable line) `load_jsonl_data` aborts with a JSON
decode error instead of returning the parsed result the claim requires. -/
theorem c4_malformed_line_not_skipped :
    load_jsonl_data id
      [Line.obj [("__manifest__", .jdict [("base_dir", .jstr "./d")])],
       Line.bad "free-form trailing text"] = .error .jsonDecodeError ∧
    ∀ r, load_jsonl_data id
      [Line.obj [("__manifest__", .jdict [("base_dir", .jstr "./d")])],
       Line.bad "free-form trailing text"] ≠ .ok r := by
  have h1 : load_jsonl_data id
      [Line.obj [("__manifest__", .jdict [("base_dir", .jstr "./d")])],
       Line.bad "free-form trailing text"] = .error .jsonDecodeError := rfl
  refine ⟨h1, fun r h => ?_⟩
  rw [h1] at h
  exact Except.noConfusion h

/-- Claim C4 amended: `load_jsonl_data` ignores blank lines wherever they
occur, and a missing header does not by itself abort a load — header-free,
record-free input loads successfully with an empty base directory; but a
line that fails to decode as JSON is not skipped: the whole load aborts
with a decode error at the first such line (after any header or blank
lines).  (Record lines abort too, through the `rel_path` TypeError of C2.) -/
theorem c4_load_tolerance_amended :
    (∀ (resolve : String → String) (l₁ l₂ : List Line),
      load_jsonl_data resolve (l₁ ++ Line.blank :: l₂) =
        load_jsonl_data resolve (l₁ ++ l₂)) ∧
    (∀ (resolve : String → String) (hs : List Line) (s : String) (ls : List Line),
      (∀ l ∈ hs, l = Line.blank ∨ ∃ f m, l = Line.obj f ∧
        f.lookup "__manifest__" = some (.jdict m)) →
      load_jsonl_data resolve (hs ++ Line.bad s :: ls) = .error .jsonDecodeError) ∧
    (∀ (resolve : String → String) (ls : List Line),
      (∀ l ∈ ls, l = Line.blank) →
      load_jsonl_data resolve ls = .ok ([], .jstr "", none)) := by
  refine ⟨?_, ?_, ?_⟩
  · exact fun resolve l₁ l₂ => loadGo_blank_mid resolve l₂ l₁ _
  · exact fun resolve hs s ls h => loadGo_headers_bad resolve s ls hs _ h
  · exact fun resolve ls h => loadGo_all_blank resolve ls _ h

theorem c4_load_tolerance_amended_witness :
    load_jsonl_data id [Line.blank, Line.bad "x"] =
      load_jsonl_data id [Line.bad "x"] ∧
    load_jsonl_data id
      [Line.obj [("__manifest__", .jdict [])], Line.bad "x"] =
      .error .jsonDecodeError ∧
    load_jsonl_data id [Line.blank, Line.blank] = .ok ([], .jstr "", none) := by
  refine ⟨?_, ?_, ?_⟩
  · exact c4_load_tolerance_amended.1 id [] [Line.bad "x"]
  · refine c4_load_tolerance_amended.2.1 id [Line.obj [("__manifest__", .jdict [])]]
      "x" [] ?_
    intro l hl
    right
    refine ⟨[("__manifest__", .jdict [])], [], ?_, rfl⟩
    simpa using hl
  · refine c4_load_tolerance_amended.2.2 id [Line.blank, Line.blank] ?_
    intro l hl
    rcases List.mem_cons.mp hl with rfl | hl'
    · rfl
    · simpa using hl'

/-! ## Strategy A text parsing (claim C5) -/

theorem lBegins_mem : ∀ (pat m : List Char), lBegins pat m = true →
    ∀ c ∈ pat, c ∈ m
  | [], _, _, c, hc => absurd hc (List.not_mem_nil c)
  | a :: as, [], h, _, _ => by simp [lBegins] at h
  | a :: as, b :: bs, h, c, hc => by
    simp only [lBegins, Bool.and_eq_true] at h
    obtain ⟨hab, hrest⟩ := h
    rcases List.mem_cons.mp hc with h' | hc'
    · have hab' : a = b := by simpa using hab
      rw [h', hab']
      exact List.mem_cons_self b bs
    · exact List.mem_cons_of_mem b (lBegins_mem as bs hrest c hc')

theorem pyLowerChar_eq_colon {c : Char} (h : pyLowerChar c = ':') : c = ':' := by
  unfold pyLowerChar at h
  split at h <;> simp_all

theorem mem_lInside {c : Char} : ∀ m : List Char, c ∈ m → lInside [c] m = true
  | [], h => absurd h (List.not_mem_nil c)
  | b :: bs, h => by
    rcases List.mem_cons.mp h with rfl | h'
    · simp [lInside, lBegins]
    · simp [lInside, mem_lInside bs h']

theorem colon_of_posBegins {l : String}
    (h : strBegins (pyLowerStr l) "positive prompt:" = true) :
    strInside ":" l = true := by
  have hmem : ':' ∈ l.data.map pyLowerChar :=
    lBegins_mem _ _ h ':' (by decide)
  obtain ⟨c, hc, hlc⟩ := List.mem_map.mp hmem
  have : c = ':' := pyLowerChar_eq_colon hlc
  subst this
  exact mem_lInside l.data hc

theorem ptpLoop_pre (rest : List String) (buf : List String) :
    ∀ pre : List String,
    (∀ l ∈ pre, ¬ strBegins (pyLowerStr l) "positive prompt:" = true) →
    ptpLoop (pre ++ rest) false buf = ptpLoop rest false buf
  | [], _ => rfl
  | l :: pre, h => by
    have hl := h l (List.mem_cons_self l pre)
    have hstep : ptpLoop (l :: (pre ++ rest)) false buf =
        ptpLoop (pre ++ rest) false buf := by
      simp [ptpLoop, hl]
    rw [List.cons_append, hstep]
    exact ptpLoop_pre rest buf pre (fun x hx => h x (List.mem_cons_of_mem l hx))

theorem ptpLoop_cont (stop : String) (post : List String)
    (hstop : strInside ":" stop = true)
    (hstop' : ¬ strBegins (pyLowerStr stop) "positive prompt:" = true) :
    ∀ (cont : List String) (buf : List String),
    (∀ l ∈ cont, ¬ strInside ":" l = true) →
    ptpLoop (cont ++ stop :: post) true buf = buf ++ cont.filter (fun l => l ≠ "")
  | [], buf, _ => by
    show ptpLoop (stop :: post) true buf = buf ++ []
    simp [ptpLoop, hstop', hstop]
  | l :: cont, buf, h => by
    have hl := h l (List.mem_cons_self l cont)
    have htail := fun x hx => h x (List.mem_cons_of_mem l hx)
    have hlb : ¬ strBegins (pyLowerStr l) "positive prompt:" = true := by
      intro hb
      exact hl (colon_of_posBegins hb)
    rw [List.cons_append]
    by_cases hle : l = ""
    · have hstep : ptpLoop (l :: (cont ++ stop :: post)) true buf =
          ptpLoop (cont ++ stop :: post) true buf := by
        simp only [ptpLoop, hlb, hl]
        rw [if_neg (show ¬ l ≠ "" from fun h => h hle)]
        simp
      rw [hstep, ptpLoop_cont stop post hstop hstop' cont buf htail]
      simp [List.filter_cons, hle]
    · have hstep : ptpLoop (l :: (cont ++ stop :: post)) true buf =
          ptpLoop (cont ++ stop :: post) true (buf ++ [l]) := by
        simp only [ptpLoop, hlb, hl]
        rw [if_pos hle]
        simp
      rw [hstep, ptpLoop_cont stop post hstop hstop' cont (buf ++ [l]) htail]
      simp [List.filter_cons, hle]

theorem sJoin_cons_cons (sep a b : String) (l : List String) :
    sJoin sep (a :: b :: l) = sJoin sep ((a ++ sep ++ b) :: l) := by
  cases l with
  | nil => rfl
  | cons c l' =>
    show a ++ sep ++ (b ++ sep ++ sJoin sep (c :: l')) =
      (a ++ sep ++ b) ++ sep ++ sJoin sep (c :: l')
    simp [String.append_assoc]

theorem duInner_fold (stop : String) (post : List String)
    (hstop : strInside ":" (pyStripStr stop) = true ∨ pyStripStr stop = "") :
    ∀ (cont : List String) (acc : String),
    (∀ l ∈ cont, ¬ strInside ":" (pyStripStr l) = true ∧ pyStripStr l ≠ "") →
    duInner (cont ++ stop :: post) acc = sJoin " " (acc :: cont.map pyStripStr)
  | [], acc, _ => by
    show duInner (stop :: post) acc = acc
    rcases hstop with h' | h'
    · simp [duInner, h']
    · simp [duInner, h']
  | l :: cont, acc, h => by
    obtain ⟨hl₁, hl₂⟩ := h l (List.mem_cons_self l cont)
    have htail := fun x hx => h x (List.mem_cons_of_mem l hx)
    rw [List.cons_append]
    have hstep : duInner (l :: (cont ++ stop :: post)) acc =
        duInner (cont ++ stop :: post) (acc ++ " " ++ pyStripStr l) := by
      simp [duInner, hl₁, hl₂]
    rw [hstep, duInner_fold stop post hstop cont (acc ++ " " ++ pyStripStr l) htail]
    rw [List.map_cons, sJoin_cons_cons]

theorem duOuter_pre (rest : List String) :
    ∀ pre : List String,
    (∀ l ∈ pre, ¬ strBegins (pyLowerStr (pyStripStr l)) "positive prompt:" = true) →
    duOuter (pre ++ rest) = duOuter rest
  | [], _ => rfl
  | l :: pre, h => by
    show duOuter (l :: (pre ++ rest)) = _
    simp only [duOuter, if_neg (h l (List.mem_cons_self l pre))]
    exact duOuter_pre rest pre (fun x hx => h x (List.mem_cons_of_mem l hx))

/-- Claim C5 counterexample: in `app/extractors.py parse_text_parameters` an
empty line does not terminate the accumulation.  On
`"Positive prompt: a\n\nb"` the claim requires `"a"` (stop at the blank
line); the code returns `"a b"`. -/
theorem c5_blank_line_counterexample :
    parse_text_parameters "Positive prompt: a\n\nb" = some "a b" ∧
    ("a b" : String) ≠ "a" := by
  exact ⟨rfl, by decide⟩

/-- Claim C5 amended: the dataset_ui.py copy behaves as claimed — the
remainder of the first `positive prompt:` line plus every following line
until one that is empty or contains a colon, single-space-joined (N+1
fragments for N continuation lines).  In the `app/extractors.py` copy,
however, an empty line does not terminate accumulation: empty lines are
skipped, accumulation stops only at a colon-containing line, and the
single-space join is finally stripped. -/
theorem c5_strategyA_text_amended :
    (∀ (s : String) (pre cont post : List String) (p stop : String),
      (pySplit s '\n').map pyStripStr = pre ++ p :: (cont ++ stop :: post) →
      (∀ l ∈ pre, ¬ strBegins (pyLowerStr l) "positive prompt:" = true) →
      strBegins (pyLowerStr p) "positive prompt:" = true →
      (∀ l ∈ cont, ¬ strInside ":" l = true) →
      strInside ":" stop = true →
      ¬ strBegins (pyLowerStr stop) "positive prompt:" = true →
      parse_text_parameters s =
        some (pyStripStr (sJoin " "
          (pyStripStr (strAfterSep p ':') :: cont.filter (fun l => l ≠ ""))))) ∧
    (∀ (s : String) (pre cont post : List String) (p stop : String),
      pySplit s '\n' = pre ++ p :: (cont ++ stop :: post) →
      (∀ l ∈ pre, ¬ strBegins (pyLowerStr (pyStripStr l)) "positive prompt:" = true) →
      strBegins (pyLowerStr (pyStripStr p)) "positive prompt:" = true →
      (∀ l ∈ cont, ¬ strInside ":" (pyStripStr l) = true ∧ pyStripStr l ≠ "") →
      (strInside ":" (pyStripStr stop) = true ∨ pyStripStr stop = "") →
      duParseText s =
        some (sJoin " "
          (pyStripStr (strAfterSep (pyStripStr p) ':') :: cont.map pyStripStr))) := by
  constructor
  · intro s pre cont post p stop hsplit hpre hp hcont hstop hstop'
    show (if (ptpLoop ((pySplit s '\n').map pyStripStr) false []).isEmpty then none
      else some (pyStripStr (sJoin " "
        (ptpLoop ((pySplit s '\n').map pyStripStr) false [])))) = _
    rw [hsplit, ptpLoop_pre (p :: (cont ++ stop :: post)) [] pre hpre]
    have hstep : ptpLoop (p :: (cont ++ stop :: post)) false [] =
        pyStripStr (strAfterSep p ':') :: cont.filter (fun l => l ≠ "") := by
      have h₁ : ptpLoop (p :: (cont ++ stop :: post)) false [] =
          ptpLoop (cont ++ stop :: post) true [pyStripStr (strAfterSep p ':')] := by
        simp [ptpLoop, hp]
      rw [h₁, ptpLoop_cont stop post hstop hstop' cont _ hcont]
      rfl
    rw [hstep]
    rfl
  · intro s pre cont post p stop hsplit hpre hp hcont hstop
    show duOuter (pySplit s '\n') = _
    rw [hsplit, duOuter_pre (p :: (cont ++ stop :: post)) pre hpre]
    have h₁ : duOuter (p :: (cont ++ stop :: post)) =
        some (duInner (cont ++ stop :: post)
          (pyStripStr (strAfterSep (pyStripStr p) ':'))) := by
      simp [duOuter, hp]
    rw [h₁, duInner_fold stop post hstop cont _ hcont]

theorem c5_strategyA_text_amended_witness :
    parse_text_parameters "Positive prompt: a\nb\nNegative prompt: x" =
      some "a b" ∧
    duParseText "Positive prompt: a\nb\nNegative prompt: x" = some "a b" := by
  constructor
  · have h := c5_strategyA_text_amended.1
      "Positive prompt: a\nb\nNegative prompt: x"
      [] ["b"] [] "Positive prompt: a" "Negative prompt: x"
      (by decide) (by intro l hl; exact absurd hl (List.not_mem_nil l))
      (by decide)
      (by intro l hl; rw [List.mem_singleton.mp hl]; decide)
      (by decide) (by decide)
    rw [h]
    decide
  · have h := c5_strategyA_text_amended.2
      "Positive prompt: a\nb\nNegative prompt: x"
      [] ["b"] [] "Positive prompt: a" "Negative prompt: x"
      (by decide) (by intro l hl; exact absurd hl (List.not_mem_nil l))
      (by decide)
      (by intro l hl; rw [List.mem_singleton.mp hl]; exact ⟨by decide, by decide⟩)
      (by left; decide)
    rw [h]
    decide

/-! ## The prompt selector (claim C6) -/

theorem foldl_addCand_eq :
    ∀ (l acc : List String),
    l.foldl addCand acc =
      (l.filterMap (fun p =>
        if p = "" then none
        else
          let np := normalize_prompt p
          if np = "" then none else some np)).foldl
        (fun a np => if a.contains np then a else a ++ [np]) acc
  | [], _ => rfl
  | p :: l, acc => by
    rw [List.foldl_cons, List.filterMap_cons]
    by_cases hp : p = ""
    · rw [if_pos hp]
      have : addCand acc p = acc := by simp [addCand, hp]
      rw [this]
      exact foldl_addCand_eq l acc
    · rw [if_neg hp]
      by_cases hnp : normalize_prompt p = ""
      · simp only [hnp, if_pos rfl]
        have : addCand acc p = acc := by simp [addCand, hp, hnp]
        rw [this]
        exact foldl_addCand_eq l acc
      · simp only [if_neg hnp, List.foldl_cons]
        have : addCand acc p =
            (if acc.contains (normalize_prompt p) then acc
             else acc ++ [normalize_prompt p]) := by
          by_cases hmem : acc.contains (normalize_prompt p)
          · simp [addCand, hp, hnp, hmem]
          · simp [addCand, hp, hnp, hmem]
        rw [this]
        exact foldl_addCand_eq l _

theorem foldl_ins_dedup :
    ∀ (m acc : List String),
    m.foldl (fun a np => if a.contains np then a else a ++ [np]) acc =
      acc ++ dedupFirstSpec (m.filter (fun y => !acc.contains y))
  | [], acc => by simp [dedupFirstSpec]
  | x :: m, acc => by
    rw [List.foldl_cons, List.filter_cons]
    by_cases hmem : acc.contains x
    · rw [if_pos hmem]
      have hcond : (!acc.contains x) = false := by
        simp only [hmem, Bool.not_true]
      rw [hcond, if_neg (by simp)]
      exact foldl_ins_dedup m acc
    · rw [if_neg hmem]
      have hx : acc.contains x = false := by simpa using hmem
      have hcond : (!acc.contains x) = true := by
        simp only [hx, Bool.not_false]
      rw [hcond, if_pos rfl]
      rw [foldl_ins_dedup m (acc ++ [x])]
      have hfe : (m.filter (fun y => !(acc ++ [x]).contains y)) =
          ((m.filter (fun y => !acc.contains y)).filter (fun y => y ≠ x)) := by
        rw [List.filter_filter]
        apply List.filter_congr
        intro y _
        by_cases hyx : y = x
        · simp [hyx, List.elem_eq_mem]
        · simp [hyx, List.elem_eq_mem]
      rw [hfe]
      show acc ++ [x] ++ _ = _
      rw [List.append_assoc]
      congr 1
      show x :: dedupFirstSpec ((m.filter (fun y => !acc.contains y)).filter
        (fun y => y ≠ x)) = _
      rw [show dedupFirstSpec (x :: m.filter (fun y => !acc.contains y)) =
        x :: dedupFirstSpec ((m.filter (fun y => !acc.contains y)).filter
          (fun y => y ≠ x)) from by simp [dedupFirstSpec]]

theorem pyMaxByLen_split :
    ∀ (cs : List String) (c : String),
    ∃ pre post, c :: cs = pre ++ pyMaxByLen c cs :: post ∧
      (∀ x ∈ pre, x.length < (pyMaxByLen c cs).length) ∧
      (∀ x ∈ post, x.length ≤ (pyMaxByLen c cs).length)
  | [], c => ⟨[], [], rfl, by simp, by simp⟩
  | x :: xs, c => by
    have hstep : pyMaxByLen c (x :: xs) =
        pyMaxByLen (if c.length < x.length then x else c) xs := rfl
    by_cases hcx : c.length < x.length
    · rw [hstep, if_pos hcx]
      obtain ⟨pre, post, hdec, hpre, hpost⟩ := pyMaxByLen_split xs x
      refine ⟨c :: pre, post, by rw [List.cons_append, ← hdec], ?_, hpost⟩
      intro y hy
      rcases List.mem_cons.mp hy with rfl | hy'
      · cases pre with
        | nil =>
          have h0 : x = pyMaxByLen x xs := by
            simpa using congrArg (fun t => t.headI) hdec
          rw [← h0]
          exact hcx
        | cons q p'' =>
          have h0 : x = q := by
            simpa using congrArg (fun t => t.headI) hdec
          have hxmem : x ∈ q :: p'' := by
            rw [h0]
            exact List.mem_cons_self q p''
          exact lt_trans hcx (hpre x hxmem)
      · exact hpre y hy'
    · rw [hstep, if_neg hcx]
      obtain ⟨pre, post, hdec, hpre, hpost⟩ := pyMaxByLen_split xs c
      cases pre with
      | nil =>
        have h0 : c = pyMaxByLen c xs := by
          simpa using congrArg (fun t => t.headI) hdec
        have hxs : xs = post := by
          have ht := congrArg List.tail hdec
          simpa using ht
        refine ⟨[], x :: xs, by simp [← h0], by simp, ?_⟩
        intro y hy
        rcases List.mem_cons.mp hy with rfl | hy'
        · rw [← h0]
          omega
        · rw [hxs] at hy'
          exact hpost y hy'
      | cons q p'' =>
        have h0 : c = q := by
          simpa using congrArg (fun t => t.headI) hdec
        have hxs : xs = p'' ++ pyMaxByLen c xs :: post := by
          have ht := congrArg List.tail hdec
          simpa using ht
        have hcmem : c ∈ q :: p'' := by
          rw [h0]
          exact List.mem_cons_self q p''
        refine ⟨c :: x :: p'', post, ?_, ?_, hpost⟩
        · rw [List.cons_append, List.cons_append, ← hxs]
        · intro y hy
          rcases List.mem_cons.mp hy with h' | hy'
          · rw [h']
            exact hpre c hcmem
          · rcases List.mem_cons.mp hy' with h'' | hy''
            · rw [h'']
              exact lt_of_le_of_lt (Nat.le_of_not_lt hcx) (hpre c hcmem)
            · exact hpre y (List.mem_cons_of_mem q hy'')

/-- Claim C6: the selector of `app/extractors.py extract_all_prompts`
normalizes every candidate and drops later candidates whose normalized value
was already seen, preserving first-seen order (it computes exactly the
order-preserving first-occurrence dedup of the normalized nonempty
candidates), and returns the longest survivor, ties broken in favour of the
earliest (the result splits the candidate list with strictly shorter strings
before it and no longer string anywhere); on candidates
`["abc", "abcdef", "abc"]` it returns `"abcdef"`, and with no candidates it
returns the empty prompt. -/
theorem c6_selector :
    (∀ (candA : Option String) (candsB : List String),
      promptCandidates candA candsB =
        dedupFirstSpec (normalizedCandidatesSpec candA candsB)) ∧
    (∀ (candA : Option String) (candsB : List String) (c : String)
        (cs : List String),
      promptCandidates candA candsB = c :: cs →
      ∃ pre post, promptCandidates candA candsB =
        pre ++ selectPrompt candA candsB :: post ∧
        (∀ x ∈ pre, x.length < (selectPrompt candA candsB).length) ∧
        (∀ x ∈ post, x.length ≤ (selectPrompt candA candsB).length)) ∧
    selectPrompt (some "abc") ["abcdef", "abc"] = "abcdef" ∧
    selectPrompt none [] = "" := by
  refine ⟨?_, ?_, ?_, rfl⟩
  · intro candA candsB
    show ((match candA with | none => [] | some p => [p]) ++ candsB).foldl
      addCand [] = _
    rw [foldl_addCand_eq, foldl_ins_dedup]
    have hfilt : ∀ l : List String,
        (l.filter (fun y => !(([] : List String).contains y))) = l := by
      intro l
      apply List.filter_eq_self.mpr
      intro a _
      simp [List.elem_eq_mem]
    rw [hfilt]
    rfl
  · intro candA candsB c cs hpc
    have hsel : selectPrompt candA candsB = pyMaxByLen c cs := by
      unfold selectPrompt
      rw [hpc]
    obtain ⟨pre, post, hdec, hpre, hpost⟩ := pyMaxByLen_split cs c
    rw [hsel, hpc]
    exact ⟨pre, post, hdec, hpre, hpost⟩
  · rfl

theorem c6_selector_witness :
    promptCandidates (some "abc") ["abcdef", "abc"] =
      dedupFirstSpec (normalizedCandidatesSpec (some "abc") ["abcdef", "abc"]) ∧
    (∃ pre post, promptCandidates (some "abc") ["abcdef", "abc"] =
      pre ++ selectPrompt (some "abc") ["abcdef", "abc"] :: post ∧
      (∀ x ∈ pre, x.length < (selectPrompt (some "abc") ["abcdef", "abc"]).length) ∧
      (∀ x ∈ post, x.length ≤ (selectPrompt (some "abc") ["abcdef", "abc"]).length)) := by
  refine ⟨c6_selector.1 (some "abc") ["abcdef", "abc"], ?_⟩
  exact c6_selector.2.1 (some "abc") ["abcdef", "abc"] "abc" ["abcdef"] rfl

/-! ## Strategy A structured decode (claim C7) -/

/-- Claim C7: when the `parameters` metadata value decodes to a mapping and
the fixed key list (`Positive prompt`, `positive prompt`, `Positive Prompt`,
`positive_prompt`, `prompt`, `Prompt`, in that order) finds a string value,
`extract_positive_prompt` returns exactly that first match's value; fed to
the selector as the single candidate, the extracted prompt is that value
unchanged up to normalization. -/
theorem c7_json_keys :
    (∀ (meta : List (String × JVal)) (s : String) (d : List (String × JVal))
        (v : String),
      meta.lookup "parameters" = some (.jstr s) →
      safe_json_load s = some (.jdict d) →
      recognizedKeys.findSome? (fun k => d.lookup k) = some (.jstr v) →
      extract_positive_prompt "PNG" meta = some v) ∧
    (∀ v : String, v ≠ "" → normalize_prompt v ≠ "" →
      selectPrompt (some v) [] = normalize_prompt v) := by
  constructor
  · intro meta s d v hlk hjson hfind
    unfold extract_positive_prompt
    rw [if_neg (by simp)]
    simp only [hlk, hjson, hfind]
    rfl
  · intro v hv hnv
    have hpc : promptCandidates (some v) [] = [normalize_prompt v] := by
      simp [promptCandidates, addCand, hv, hnv]
    unfold selectPrompt
    rw [hpc]
    rfl

theorem c7_json_keys_witness :
    extract_positive_prompt "PNG"
      [("parameters", .jstr "\x7b\"prompt\": \"a red fox\"\x7d")] =
      some "a red fox" ∧
    selectPrompt (some "a red fox") [] = normalize_prompt "a red fox" := by
  constructor
  · exact c7_json_keys.1
      [("parameters", .jstr "\x7b\"prompt\": \"a red fox\"\x7d")]
      "\x7b\"prompt\": \"a red fox\"\x7d"
      [("prompt", .jstr "a red fox")] "a red fox" rfl rfl rfl
  · exact c7_json_keys.2 "a red fox" (by decide) (by decide)

/-! ## Content identity (claim C8) -/

theorem foldl_append_join : ∀ (ls : List (List Nat)) (acc : List Nat),
    ls.foldl (· ++ ·) acc = acc ++ ls.flatten
  | [], acc => by simp
  | h :: t, acc => by
    rw [List.foldl_cons, foldl_append_join t (acc ++ h), List.flatten_cons,
      List.append_assoc]

theorem readChunks_join : ∀ bs : List Nat, (readChunks bs).flatten = bs
  | [] => by simp [readChunks]
  | b :: t => by
    simp only [readChunks]
    rw [List.flatten_cons, readChunks_join ((b :: t).drop 8192),
      List.take_append_drop]
termination_by bs => bs.length
decreasing_by
  simp only [List.length_drop, List.length_cons]
  omega

/-- Claim C8: `file_hash` is a pure, deterministic function of the file's
bytes — the chunked streaming digests exactly the whole byte sequence, so
hashing the same unmodified file twice yields the same id, and a
byte-identical copy under any other path yields the same id as the
original, for every digest function and file system. -/
theorem c8_content_id :
    (∀ (digest : List Nat → String) (fs : String → List Nat) (p : String),
      file_hash digest fs p = digest (fs p)) ∧
    (∀ (digest : List Nat → String) (fs : String → List Nat) (p q : String),
      fs p = fs q → file_hash digest fs p = file_hash digest fs q) := by
  have hfh : ∀ (digest : List Nat → String) (fs : String → List Nat) (p : String),
      file_hash digest fs p = digest (fs p) := by
    intro digest fs p
    unfold file_hash
    rw [foldl_append_join, List.nil_append, readChunks_join]
  exact ⟨hfh, fun digest fs p q h => by rw [hfh, hfh, h]⟩

theorem c8_content_id_witness :
    file_hash (fun bs => toString bs.length)
      (fun p => if p = "renamed.png" then [7, 7, 7] else [1, 2, 3]) "a.png" =
    file_hash (fun bs => toString bs.length)
      (fun p => if p = "renamed.png" then [7, 7, 7] else [1, 2, 3]) "b/a.png" := by
  exact c8_content_id.2 (fun bs => toString bs.length)
    (fun p => if p = "renamed.png" then [7, 7, 7] else [1, 2, 3])
    "a.png" "b/a.png" (by decide)

/-! ## Scanner idempotence (claim C9) -/

theorem duGo_shape (abspath : String → String) (ds : String) (fns fps : List String) :
    ∀ (dir : List DUFile) (es : List DUEntry) (n : Nat),
    ∃ X m, duGo abspath ds fns fps dir (es, n) = (es ++ X, n + m)
  | [], es, n => ⟨[], 0, by simp [duGo]⟩
  | f :: dir, es, n => by
    simp only [duGo]
    by_cases h1 : isImageName f.filename = true
    · rw [if_neg (fun hc => hc h1)]
      by_cases h2 : (fns.contains f.filename ||
          fps.contains (joinPath ds f.filename)) = true
      · rw [if_pos h2]
        exact duGo_shape abspath ds fns fps dir es n
      · rw [if_neg h2]
        by_cases h3 : f.thumb = ""
        · rw [if_neg (fun hc => hc h3)]
          exact duGo_shape abspath ds fns fps dir es n
        · rw [if_pos h3]
          obtain ⟨X, m, hX⟩ := duGo_shape abspath ds fns fps dir
            (es ++ [mkDUEntry abspath ds f]) (n + 1)
          exact ⟨[mkDUEntry abspath ds f] ++ X, 1 + m,
            by rw [hX, List.append_assoc, Nat.add_assoc]⟩
    · rw [if_pos h1]
      exact duGo_shape abspath ds fns fps dir es n

theorem duGo_added (abspath : String → String) (ds : String) (fns fps : List String) :
    ∀ (dir : List DUFile) (es : List DUEntry) (n : Nat) (f : DUFile),
    f ∈ dir → isImageName f.filename = true →
    (fns.contains f.filename || fps.contains (joinPath ds f.filename)) = false →
    f.thumb ≠ "" →
    mkDUEntry abspath ds f ∈ (duGo abspath ds fns fps dir (es, n)).1
  | [], _, _, f, hf, _, _, _ => absurd hf (List.not_mem_nil f)
  | g :: dir, es, n, f, hf, himg, hdup, hth => by
    rcases List.mem_cons.mp hf with h' | h'
    · subst h'
      simp only [duGo]
      rw [if_neg (show ¬¬(isImageName f.filename = true) from fun hc => hc himg)]
      rw [if_neg (show ¬((fns.contains f.filename ||
        fps.contains (joinPath ds f.filename)) = true) from by
          simpa [List.elem_eq_mem] using hdup)]
      rw [if_pos hth]
      obtain ⟨X, m, hX⟩ :=
        duGo_shape abspath ds fns fps dir (es ++ [mkDUEntry abspath ds f]) (n + 1)
      rw [hX]
      simp
    · simp only [duGo]
      by_cases h1 : isImageName g.filename = true
      · rw [if_neg (fun hc => hc h1)]
        by_cases h2 : (fns.contains g.filename ||
            fps.contains (joinPath ds g.filename)) = true
        · rw [if_pos h2]
          exact duGo_added abspath ds fns fps dir _ _ f h' himg hdup hth
        · rw [if_neg h2]
          by_cases h3 : g.thumb = ""
          · rw [if_neg (fun hc => hc h3)]
            exact duGo_added abspath ds fns fps dir _ _ f h' himg hdup hth
          · rw [if_pos h3]
            exact duGo_added abspath ds fns fps dir _ _ f h' himg hdup hth
      · rw [if_pos h1]
        exact duGo_added abspath ds fns fps dir _ _ f h' himg hdup hth

theorem isImageName_ne_empty {fn : String} (h : isImageName fn = true) :
    fn ≠ "" := by
  intro he
  subst he
  exact absurd h (by decide)

theorem mem_duFns {entries : List DUEntry} {e : DUEntry}
    (he : e ∈ entries) (hne : e.dataset_filename ≠ "") :
    e.dataset_filename ∈ duFns entries := by
  apply List.mem_filterMap.mpr
  exact ⟨e, he, by simp [hne]⟩

theorem contains_duFns_append (st X : List DUEntry) (y : String)
    (h : (duFns st).contains y = true) : (duFns (st ++ X)).contains y = true := by
  unfold duFns at h ⊢
  rw [List.filterMap_append]
  simp only [List.elem_eq_mem, decide_eq_true_eq] at h ⊢
  exact List.mem_append_left _ h

theorem contains_duFps_append (st X : List DUEntry) (y : String)
    (h : (duFps st).contains y = true) : (duFps (st ++ X)).contains y = true := by
  unfold duFps at h ⊢
  rw [List.filterMap_append]
  simp only [List.elem_eq_mem, decide_eq_true_eq] at h ⊢
  exact List.mem_append_left _ h

theorem duGo_zero (abspath : String → String) (ds : String) (fns fps : List String) :
    ∀ (dir : List DUFile) (es : List DUEntry) (n : Nat),
    (∀ f ∈ dir, ¬ isImageName f.filename = true ∨
      (fns.contains f.filename || fps.contains (joinPath ds f.filename)) = true ∨
      f.thumb = "") →
    duGo abspath ds fns fps dir (es, n) = (es, n)
  | [], es, n, _ => by simp [duGo]
  | f :: dir, es, n, h => by
    have hf := h f (List.mem_cons_self f dir)
    have htail := fun g hg => h g (List.mem_cons_of_mem f hg)
    simp only [duGo]
    by_cases h1 : isImageName f.filename = true
    · rw [if_neg (fun hc => hc h1)]
      by_cases h2 : (fns.contains f.filename ||
          fps.contains (joinPath ds f.filename)) = true
      · rw [if_pos h2]
        exact duGo_zero abspath ds fns fps dir es n htail
      · rw [if_neg h2]
        by_cases h3 : f.thumb = ""
        · rw [if_neg (fun hc => hc h3)]
          exact duGo_zero abspath ds fns fps dir es n htail
        · rcases hf with h' | h' | h'
          · exact (h' h1).elim
          · exact (h2 h').elim
          · exact (h3 h').elim
    · rw [if_pos h1]
      exact duGo_zero abspath ds fns fps dir es n htail

/-- Claim C9: rescanning an unchanged directory a second time, starting from
the collection the first run produced, adds zero new records, and a file
already represented by its `dataset_filename` or resolved path is skipped
without error.  This holds for both scanner copies: the `app/app.py` scanner
(which — per C2 — adds nothing on any run) and the working `dataset_ui.py`
scanner, whose second run returns the first run's collection unchanged with
a zero count. -/
theorem c9_scanner_idempotent :
    (∀ (ds_str : String) (image_data : List (List (String × JVal)))
        (files : List ScanFile),
      (rescan_dataset_directory ds_str
        (rescan_dataset_directory ds_str image_data files).image_data
        files).newImages = 0) ∧
    (∀ (ds_str : String) (st : ScanState) (f : ScanFile),
      (st.fns.contains (f.relName.getD f.name) ||
        st.fps.contains f.resolvedPath) = true →
      scanStep ds_str st f = st) ∧
    (∀ (abspath : String → String) (ds : String) (dir : List DUFile)
        (st : List DUEntry),
      duRescan abspath ds dir (duRescan abspath ds dir st).1 =
        ((duRescan abspath ds dir st).1, 0)) := by
  refine ⟨?_, ?_, ?_⟩
  · intro ds image_data files
    exact (scanFold ds files _).2.2.2.1
  · intro ds st f hdup
    rcases scanStep_cases ds st f with ⟨_, hstep⟩ | ⟨hdup', _⟩
    · exact hstep
    · rw [hdup] at hdup'
      cases hdup'
  · intro abspath ds dir st
    have hP : ∀ f ∈ dir, ¬ isImageName f.filename = true ∨
        ((duFns (duRescan abspath ds dir st).1).contains f.filename ||
         (duFps (duRescan abspath ds dir st).1).contains
           (joinPath ds f.filename)) = true ∨
        f.thumb = "" := by
      intro f hf
      by_cases himg : isImageName f.filename = true
      · by_cases hdup : ((duFns st).contains f.filename ||
            (duFps st).contains (joinPath ds f.filename)) = true
        · right; left
          obtain ⟨X, m, hX⟩ := duGo_shape abspath ds (duFns st) (duFps st) dir st 0
          have hs1 : (duRescan abspath ds dir st).1 = st ++ X := by
            show (duGo abspath ds (duFns st) (duFps st) dir (st, 0)).1 = st ++ X
            rw [hX]
          rw [hs1, Bool.or_eq_true]
          rcases (Bool.or_eq_true _ _).mp hdup with h' | h'
          · exact Or.inl (contains_duFns_append st X _ h')
          · exact Or.inr (contains_duFps_append st X _ h')
        · by_cases hth : f.thumb = ""
          · exact Or.inr (Or.inr hth)
          · right; left
            have hmem := duGo_added abspath ds (duFns st) (duFps st) dir st 0 f
              hf himg (by simpa using hdup) hth
            have hfn : f.filename ∈ duFns (duRescan abspath ds dir st).1 :=
              mem_duFns hmem (isImageName_ne_empty himg)
            rw [Bool.or_eq_true]
            left
            simp only [List.elem_eq_mem, decide_eq_true_eq]
            exact hfn
      · exact Or.inl himg
    show duGo abspath ds (duFns (duRescan abspath ds dir st).1)
      (duFps (duRescan abspath ds dir st).1) dir
      ((duRescan abspath ds dir st).1, 0) = ((duRescan abspath ds dir st).1, 0)
    exact duGo_zero abspath ds _ _ dir _ 0 hP

theorem c9_scanner_idempotent_witness :
    (rescan_dataset_directory "./ds"
      (rescan_dataset_directory "./ds" []
        [{ name := "a.png", resolvedPath := "/abs/ds/a.png",
           relName := some "a.png", prompt := "p", thumb := "t",
           hashId := "h" }]).image_data
      [{ name := "a.png", resolvedPath := "/abs/ds/a.png",
         relName := some "a.png", prompt := "p", thumb := "t",
         hashId := "h" }]).newImages = 0 ∧
    duRescan id "./ds"
      [{ filename := "a.png", prompt := "p", thumb := "T", newId := "u1" }]
      (duRescan id "./ds"
        [{ filename := "a.png", prompt := "p", thumb := "T", newId := "u1" }]
        []).1 =
      ((duRescan id "./ds"
        [{ filename := "a.png", prompt := "p", thumb := "T", newId := "u1" }]
        []).1, 0) := by
  constructor
  · exact c9_scanner_idempotent.1 "./ds" []
      [{ name := "a.png", resolvedPath := "/abs/ds/a.png",
         relName := some "a.png", prompt := "p", thumb := "t", hashId := "h" }]
  · exact c9_scanner_idempotent.2.2 id "./ds"
      [{ filename := "a.png", prompt := "p", thumb := "T", newId := "u1" }] []

end ComfyPrompt
